import Mathlib

/-!
Shallow embedding of `wiktionary_translation_extractor.py`.

Strings are modelled as `List Char` (`Tok`).  Python string operations used by
the source (`in` substring test, `split`, `replace`, `strip`, slicing,
`endswith`, `index("=")`) are embedded as executable functions below, each
annotated with the source operation it models.  Exceptions (`TypeError`) are
modelled with `Except DecodeError`.
-/

namespace WiktionaryExtractor

abbrev Tok := List Char

/-- Coerce a Lean string literal to the `List Char` representation. -/
def str (s : String) : Tok := s.data

/-- Python substring test `pat in s` (for `str` operands): `pat` occurs
contiguously in `s`.  The empty pattern occurs in every string, as in Python. -/
def occursIn (pat : Tok) : Tok → Bool
  | [] => pat.isEmpty
  | c :: rest => pat.isPrefixOf (c :: rest) || occursIn pat rest

/-- Python `s.replace(ab, "")` for a two-character pattern `ab`:
left-to-right removal of non-overlapping occurrences of the pair `a, b`. -/
def removePair (a b : Char) : Tok → Tok
  | [] => []
  | [c] => [c]
  | c :: d :: rest =>
    if c = a ∧ d = b then removePair a b rest
    else c :: removePair a b (d :: rest)

/-- ASCII whitespace recognised by Python `str.strip()` (the source's input
lines only carry ASCII whitespace, so the Unicode cases are not modelled). -/
def isSpaceChar (c : Char) : Bool :=
  c = ' ' || c = '\t' || c = '\n' || c = '\r' || c = '\x0b' || c = '\x0c'

/-- Python `s.strip()`. -/
def stripChars (s : Tok) : Tok :=
  ((s.dropWhile isSpaceChar).reverse.dropWhile isSpaceChar).reverse

/-- Python slice `s[lo:-hi]` (`hi` counted from the end): empty when the
bounds cross, exactly as the truncated `Nat` subtraction gives. -/
def pySlice (lo hi : Nat) (s : Tok) : Tok :=
  (s.drop lo).take (s.length - hi - lo)

/-! ## Data model (`Translation`, `TranslationGroup` dataclasses) -/

structure Translation where
  language_code : Tok
  translation : Tok
  is_equivalent_term : Bool := true
  gender : Option Tok := none
  script_code : Option Tok := none
  transliteration : Option Tok := none
  alternate_form : Option Tok := none
  literal_translation : Option Tok := none
  qualifier : Option Tok := none
deriving DecidableEq

structure TranslationGroup where
  meaning : Tok
  translations : List Translation
deriving DecidableEq

/-- The three `TypeError` situations of the source, named as in the spec. -/
inductive DecodeError where
  | malformedArguments
  | unrecognizedTemplate
  | missingRequiredArgument
deriving DecidableEq

deriving instance DecidableEq for Except

/-! ## Argument Splitter (`generate_arguments`, source lines 54-74) -/

/-- Python `"=" in argument`. -/
def hasEq (t : Tok) : Bool := t.any (fun c => c = '=')

/-- Python `argument[:argument.index("=")]` / `argument[argument.index("=")+1:]`:
split a token on its first `=`. -/
def splitKW (t : Tok) : Tok × Tok :=
  (t.takeWhile (fun c => c ≠ '='), (t.dropWhile (fun c => c ≠ '=')).drop 1)

/-- Python dict assignment `d[k] = v`: update in place if the key exists
(keeping its position), otherwise append. -/
def insertKW (m : List (Tok × Tok)) (k v : Tok) : List (Tok × Tok) :=
  match m with
  | [] => [(k, v)]
  | (k', v') :: rest => if k' = k then (k, v) :: rest else (k', v') :: insertKW rest k v

/-- Python `k in d` plus `d[k]`. -/
def lookupKW (m : List (Tok × Tok)) (k : Tok) : Option Tok :=
  match m with
  | [] => none
  | (k', v) :: rest => if k' = k then some v else lookupKW rest k

/-- The loop of `generate_arguments`: `keywords` is the mutable flag, `pos` and
`kw` the accumulators. -/
def genArgsAux (keywords : Bool) (pos : List Tok) (kw : List (Tok × Tok)) :
    List Tok → Except DecodeError (List Tok × List (Tok × Tok))
  | [] => .ok (pos, kw)
  | t :: rest =>
    if hasEq t then
      genArgsAux true pos (insertKW kw (splitKW t).1 (splitKW t).2) rest
    else if keywords then
      .error .malformedArguments
    else
      genArgsAux false (pos ++ [t]) kw rest

/-- `generate_arguments` (source lines 54-74). -/
def generate_arguments (arguments : List Tok) :
    Except DecodeError (List Tok × List (Tok × Tok)) :=
  genArgsAux false [] [] arguments

/-! ## Term Decoder (`decode_term`, source lines 77-115) -/

/-- The accepted template types (source line 84). -/
def acceptedTypes : List Tok := [str "t", str "t+", str "t-simple", str "tt", str "tt+"]

/-- Python `s.replace("[[", "").replace("]]", "")`. -/
def removeBrackets (s : Tok) : Tok :=
  removePair ']' ']' (removePair '[' '[' s)

/-- Source lines 92-113: build the `Translation` from the split arguments.
`arg1` is the raw token `arguments[1]` (the token after the type tag; in every
successful decode it equals `positional[0]`, the language code).  The source's
condition `"[[" and "]]" in arguments[1]` evaluates in Python to
`"]]" in arguments[1]`, which is what is embedded here. -/
def buildEntry (arg1 : Tok) (pos : List Tok) (kw : List (Tok × Tok)) : Translation :=
  let r0 : Translation := { language_code := pos.headD [], translation := (pos.drop 1).headD [] }
  let r1 := if occursIn (str "]]") arg1 then
      { r0 with is_equivalent_term := false, translation := removeBrackets r0.translation }
    else r0
  let r2 := match (pos.drop 2).head? with
    | some g => { r1 with gender := some g }
    | none => r1
  let r3 := match lookupKW kw (str "sc") with
    | some v => { r2 with script_code := some v }
    | none => r2
  let r4 := match lookupKW kw (str "tr") with
    | some v => { r3 with transliteration := some v }
    | none => r3
  let r5 := match lookupKW kw (str "alt") with
    | some v => { r4 with alternate_form := some v }
    | none => r4
  let r6 := match lookupKW kw (str "lit") with
    | some v => { r5 with literal_translation := some v }
    | none => r5
  match lookupKW kw (str "g") with
    | some v => { r6 with gender := some v }
    | none => r6

/-- `decode_term` (source lines 77-115).  The `[]` case cannot arise from the
tokenizer (Python `split` never returns an empty list); it is mapped to the
same rejection as an unknown type. -/
def decode_term : List Tok → Except DecodeError Translation
  | [] => .error .unrecognizedTemplate
  | ty :: rest =>
    if ty ∈ acceptedTypes then
      match generate_arguments rest with
      | .error e => .error e
      | .ok (pos, kw) =>
        if pos.length < 2 then .error .missingRequiredArgument
        else .ok (buildEntry (rest.headD []) pos kw)
    else .error .unrecognizedTemplate

/-! ## Block Tokenizer (source lines 148-163)

The regex `re.finditer(r"\x7b\x7b.*?\x7d\x7d", segment)` is embedded as a
left-to-right scan for the leftmost `\x7b\x7b`, paired with the earliest
following `\x7d\x7d` (non-greedy), continuing after the match. -/

/-- Character scanner for the non-greedy match: `inside = none` while looking
for the next `\x7b\x7b`, `inside = some acc` while accumulating the interior
(reversed in `acc`) of an open match until the earliest `\x7d\x7d`.  A match
left open at the end of the segment is not a match, as for the regex. -/
def scanCodeblocks (inside : Option Tok) : Tok → List Tok
  | [] => []
  | [_] => []
  | c :: d :: rest =>
    match inside with
    | none =>
      if c = '\x7b' ∧ d = '\x7b' then scanCodeblocks (some []) rest
      else scanCodeblocks none (d :: rest)
    | some acc =>
      if c = '\x7d' ∧ d = '\x7d' then acc.reverse :: scanCodeblocks none rest
      else scanCodeblocks (some (c :: acc)) (d :: rest)

/-- All matches of the non-greedy codeblock regex in a segment, with the
`\x7b\x7b` / `\x7d\x7d` delimiters stripped (the `[2:-2]` slice of the source). -/
def findCodeblocks (s : Tok) : List Tok :=
  scanCodeblocks none s

/-- One iteration of the codeblock loop (source lines 153-163): state is the
current qualifier and the entry list accumulated so far. -/
def procCB (acc : Option Tok × List Translation) (interior : Tok) :
    Option Tok × List Translation :=
  let codeblock := interior.splitOn '|'
  match codeblock with
  | [] => acc
  | q :: restToks =>
    if q = str "qualifier" ∧ restToks ≠ [] then
      (some (List.intercalate (str "|") restToks), acc.2)
    else
      match decode_term codeblock with
      | .ok e => (acc.1, acc.2 ++ [{ e with qualifier := acc.1 }])
      | .error _ => acc

/-- Process all codeblocks of one comma segment under a qualifier state. -/
def runCodeblocks (acc : Option Tok × List Translation) (cbs : List Tok) :
    Option Tok × List Translation :=
  cbs.foldl procCB acc

/-- One comma segment of an in-block line: the qualifier is re-initialised to
`None` (source line 150), then every codeblock is processed. -/
def processSegment (g : TranslationGroup) (seg : Tok) : TranslationGroup :=
  { g with translations := (runCodeblocks (none, g.translations) (findCodeblocks seg)).2 }

/-- A whole in-block line (source lines 149-163): split on commas, process
each segment in order against the open group. -/
def processLine (line : Tok) (g : TranslationGroup) : TranslationGroup :=
  (line.splitOn ',').foldl processSegment g

/-! ## Page/Block State Machine (source lines 118-163) -/

def titleMarker : Tok := str "<title>"
def topMarker : Tok := str "\x7b\x7btrans-top|"
def bottomMarker : Tok := str "\x7b\x7btrans-bottom\x7d\x7d"
def midMarker : Tok := str "\x7b\x7btrans-mid\x7d\x7d"
def translationsSuffix : Tok := str "/translations"

/-- Title extraction (source lines 128-131): `line.strip()[7:-8]`, then strip
a trailing `/translations`. -/
def extractTitle (line : Tok) : Tok :=
  let t := pySlice 7 8 (stripChars line)
  if translationsSuffix.isSuffixOf t then t.take (t.length - 13) else t

/-- Meaning extraction (source line 136): `line.strip()[12:-2]`. -/
def extractMeaning (line : Tok) : Tok :=
  pySlice 12 2 (stripChars line)

/-- The run loop's mutable state.  `translations` is the `defaultdict(list)`
as an insertion-ordered association list; its keys are `Option Tok` because
`page_title` starts as Python `None`, and its groups are `Option` because the
source appends the variable `group`, which may still be `None`. -/
structure MachineState where
  translations : List (Option Tok × List (Option TranslationGroup))
  page_title : Option Tok
  recording : Bool
  group : Option TranslationGroup
deriving DecidableEq

def initialState : MachineState :=
  { translations := [], page_title := none, recording := false, group := none }

/-- `translations[page_title].append(group)` on the association list:
append to the existing key's list, or create the key at the end. -/
def pushGroup (m : List (Option Tok × List (Option TranslationGroup)))
    (k : Option Tok) (g : Option TranslationGroup) :
    List (Option Tok × List (Option TranslationGroup)) :=
  match m with
  | [] => [(k, [g])]
  | (k', gs) :: rest =>
    if k' = k then (k', gs ++ [g]) :: rest else (k', gs) :: pushGroup rest k g

/-- One iteration of the main loop (source lines 125-163), with the source's
branch order: title, trans-top, trans-bottom, trans-mid, recording. -/
def step (s : MachineState) (line : Tok) : MachineState :=
  if occursIn titleMarker line then
    { s with page_title := some (extractTitle line) }
  else if occursIn topMarker line then
    { s with recording := true, group := some ⟨extractMeaning line, []⟩ }
  else if occursIn bottomMarker line then
    { s with recording := false,
             translations := pushGroup s.translations s.page_title s.group }
  else if occursIn midMarker line then s
  else if s.recording then
    { s with group := s.group.map (processLine line) }
  else s

/-- The whole input stream, line by line. -/
def runMachine (lines : List Tok) : MachineState :=
  lines.foldl step initialState

/-! ## Output loop (source lines 184-200) -/

/-- One row of the `INSERT` parameters tuple, in source order. -/
structure Row where
  word : Option Tok
  meaning : Tok
  language : Tok
  translation : Tok
  is_equivalent : Bool
  gender : Option Tok
  script_code : Option Tok
  transliteration : Option Tok
  alternate : Option Tok
  literal : Option Tok
  qualifier : Option Tok
deriving DecidableEq

def rowsOfGroup (word : Option Tok) (g : TranslationGroup) : List Row :=
  g.translations.map fun t =>
    ⟨word, g.meaning, t.language_code, t.translation, t.is_equivalent_term,
     t.gender, t.script_code, t.transliteration, t.alternate_form,
     t.literal_translation, t.qualifier⟩

/-- Rows of one page; `none` models the `AttributeError` the source raises on
`group.translations` when a `None` group was appended. -/
def pageRows (word : Option Tok) : List (Option TranslationGroup) → Option (List Row)
  | [] => some []
  | none :: _ => none
  | some g :: rest =>
    match pageRows word rest with
    | some rs => some (rowsOfGroup word g ++ rs)
    | none => none

def allRows : List (Option Tok × List (Option TranslationGroup)) → Option (List Row)
  | [] => some []
  | (w, gs) :: rest =>
    match pageRows w gs, allRows rest with
    | some a, some b => some (a ++ b)
    | _, _ => none

/-- The rows handed to the Record Emitter at end of stream.  They depend only
on the accumulated `translations` mapping, never on the `recording` flag or
the still-open `group`. -/
def outputRows (s : MachineState) : Option (List Row) :=
  allRows s.translations

/-! ## Helper lemmas about the Argument Splitter -/

/-- The keyword-insertion step of the splitter, as a fold function. -/
def insStep (m : List (Tok × Tok)) (t : Tok) : List (Tok × Tok) :=
  insertKW m (splitKW t).1 (splitKW t).2

theorem lookupKW_insertKW (m : List (Tok × Tok)) (k v k' : Tok) :
    lookupKW (insertKW m k v) k' = if k = k' then some v else lookupKW m k' := by
  induction m with
  | nil =>
    by_cases h : k = k' <;> simp [insertKW, lookupKW, h]
  | cons p rest ih =>
    obtain ⟨k0, v0⟩ := p
    by_cases h0 : k0 = k
    · subst h0
      by_cases hkk : k0 = k' <;> simp [insertKW, lookupKW, hkk]
    · by_cases hkk : k0 = k'
      · subst hkk
        have hne : ¬(k = k0) := fun h2 => h0 h2.symm
        simp [insertKW, lookupKW, h0, hne]
      · simp [insertKW, lookupKW, h0, hkk, ih]

theorem lookupKW_foldl (l : List Tok) (m : List (Tok × Tok)) (k : Tok) :
    lookupKW (l.foldl insStep m) k =
      (((l.reverse.find? fun t => decide ((splitKW t).1 = k)).map fun t => (splitKW t).2) <|>
        lookupKW m k) := by
  induction l generalizing m with
  | nil => simp
  | cons t rest ih =>
    simp only [List.foldl_cons, List.reverse_cons, List.find?_append]
    rw [ih]
    cases hf : rest.reverse.find? fun t => decide ((splitKW t).1 = k) with
    | some u => simp
    | none =>
      by_cases hk : (splitKW t).1 = k <;>
        simp [List.find?, hk, insStep, lookupKW_insertKW]

theorem genArgsAux_true_eq (l : List Tok) : ∀ pos kw, genArgsAux true pos kw l =
    if l.all hasEq then .ok (pos, l.foldl insStep kw) else .error .malformedArguments := by
  induction l with
  | nil => intro pos kw; rfl
  | cons t rest ih =>
    intro pos kw
    cases h : hasEq t with
    | false => simp [genArgsAux, h]
    | true => simp [genArgsAux, h, ih, insStep]

theorem genArgsAux_false_eq (l : List Tok) : ∀ pos kw, genArgsAux false pos kw l =
    genArgsAux true (pos ++ l.takeWhile (fun t => !hasEq t)) kw
      (l.dropWhile (fun t => !hasEq t)) := by
  induction l with
  | nil => intro pos kw; simp [genArgsAux]
  | cons t rest ih =>
    intro pos kw
    cases h : hasEq t with
    | false =>
      rw [List.takeWhile_cons_of_pos (by simp [h]), List.dropWhile_cons_of_pos (by simp [h])]
      have hstep : genArgsAux false pos kw (t :: rest) = genArgsAux false (pos ++ [t]) kw rest := by
        simp [genArgsAux, h]
      rw [hstep, ih]
      simp
    | true =>
      rw [List.takeWhile_cons_of_neg (by simp [h]), List.dropWhile_cons_of_neg (by simp [h])]
      have hstep : genArgsAux false pos kw (t :: rest) =
          genArgsAux true pos (insStep kw t) rest := by
        simp [genArgsAux, h, insStep]
      have hstep2 : genArgsAux true (pos ++ []) kw (t :: rest) =
          genArgsAux true pos (insStep kw t) rest := by
        simp [genArgsAux, h, insStep]
      rw [hstep, hstep2]

/-- Closed form of `generate_arguments`: positional arguments are the leading
tokens without `=`, keyword arguments everything after, and the call fails
exactly when some token past the first keyword token lacks `=`. -/
theorem generate_arguments_eq (l : List Tok) :
    generate_arguments l =
      if (l.dropWhile (fun t => !hasEq t)).all hasEq then
        .ok (l.takeWhile (fun t => !hasEq t), (l.dropWhile (fun t => !hasEq t)).foldl insStep [])
      else .error .malformedArguments := by
  rw [generate_arguments, genArgsAux_false_eq, genArgsAux_true_eq]
  simp

theorem genArgs_ok_spec (l : List Tok) (pos : List Tok) (kw : List (Tok × Tok))
    (h : generate_arguments l = .ok (pos, kw)) :
    pos = l.filter (fun t => !hasEq t) ∧ kw = (l.filter hasEq).foldl insStep [] := by
  rw [generate_arguments_eq] at h
  split at h
  case isFalse => cases h
  case isTrue hall =>
    simp only [Except.ok.injEq, Prod.mk.injEq] at h
    obtain ⟨hpos, hkw⟩ := h
    have hsplit := List.takeWhile_append_dropWhile (p := fun t => !hasEq t) (l := l)
    have hdropAll : ∀ a ∈ l.dropWhile (fun t => !hasEq t), hasEq a = true := by
      intro a ha
      exact List.all_eq_true.mp hall a ha
    have htakeAll : ∀ a ∈ l.takeWhile (fun t => !hasEq t), hasEq a = false := by
      intro a ha
      have := List.mem_takeWhile_imp ha
      simpa using this
    constructor
    · rw [← hpos, ← hsplit, List.filter_append]
      rw [List.filter_eq_self.mpr (by intro a ha; simp [htakeAll a ha])]
      rw [List.filter_eq_nil_iff.mpr (by intro a ha; simp [hdropAll a ha])]
      simp
    · rw [← hkw, ← hsplit, List.filter_append]
      rw [List.filter_eq_nil_iff.mpr (by intro a ha; simp [htakeAll a ha])]
      rw [List.filter_eq_self.mpr (by intro a ha; simp [hdropAll a ha])]
      simp

theorem genArgs_error_iff (l : List Tok) :
    generate_arguments l = .error .malformedArguments ↔
      ∃ x y, List.Sublist [x, y] l ∧ hasEq x = true ∧ hasEq y = false := by
  induction l with
  | nil => simp [generate_arguments_eq]
  | cons t rest ih =>
    cases h : hasEq t with
    | true =>
      rw [generate_arguments_eq]
      rw [List.dropWhile_cons_of_neg (by simp [h])]
      simp only [List.all_cons, h, Bool.true_and]
      constructor
      · intro herr
        split at herr
        case isTrue => cases herr
        case isFalse hall =>
          simp only [List.all_eq_true, not_forall] at hall
          obtain ⟨y, hy, hny⟩ := hall
          refine ⟨t, y, List.Sublist.cons₂ t (List.singleton_sublist.mpr hy), h, ?_⟩
          simpa using hny
      · rintro ⟨x, y, hs, hx, hy⟩
        have hyrest : y ∈ rest := by
          cases hs with
          | cons _ h2 =>
            exact h2.subset (by simp)
          | cons₂ _ h2 =>
            exact h2.subset (by simp)
        split
        case isTrue hall =>
          have h3 := List.all_eq_true.mp hall y hyrest
          rw [h3] at hy
          cases hy
        case isFalse => rfl
    | false =>
      have hleft : (generate_arguments (t :: rest) = .error .malformedArguments) ↔
          (generate_arguments rest = .error .malformedArguments) := by
        rw [generate_arguments_eq, generate_arguments_eq rest]
        rw [List.dropWhile_cons_of_pos (by simp [h])]
        constructor
        · intro h1
          split at h1
          case isTrue => cases h1
          case isFalse h2 => rw [if_neg h2]
        · intro h1
          split at h1
          case isTrue => cases h1
          case isFalse h2 => rw [if_neg h2]
      rw [hleft, ih]
      constructor
      · rintro ⟨x, y, hs, hx, hy⟩
        exact ⟨x, y, hs.cons t, hx, hy⟩
      · rintro ⟨x, y, hs, hx, hy⟩
        refine ⟨x, y, ?_, hx, hy⟩
        cases hs with
        | cons _ h2 => exact h2
        | cons₂ _ h2 =>
          rw [h] at hx
          cases hx

/-- The first-`=` split: the key is everything before the first `=` (so the
key itself never contains `=`) and the value everything after it. -/
theorem splitKW_spec (t : Tok) (h : hasEq t = true) :
    (splitKW t).1 ++ '=' :: (splitKW t).2 = t ∧ hasEq (splitKW t).1 = false := by
  induction t with
  | nil => cases h
  | cons c rest ih =>
    by_cases hc : c = '='
    · subst hc
      constructor
      · simp [splitKW]
      · simp [splitKW, hasEq]
    · have hrest : hasEq rest = true := by
        simp only [hasEq, List.any_cons, Bool.or_eq_true, decide_eq_true_eq] at h
        rcases h with h | h
        · exact absurd h hc
        · exact h
      obtain ⟨ih1, ih2⟩ := ih hrest
      have hsplit1 : (splitKW (c :: rest)).1 = c :: (splitKW rest).1 := by
        simp [splitKW, List.takeWhile_cons_of_pos, hc]
      have hsplit2 : (splitKW (c :: rest)).2 = (splitKW rest).2 := by
        simp [splitKW, List.dropWhile_cons_of_pos, hc]
      rw [hsplit1, hsplit2]
      constructor
      · simpa using ih1
      · simp only [hasEq, List.any_cons, Bool.or_eq_false_iff]
        exact ⟨by simp [hc], ih2⟩

/-! ## Helper lemmas about the Term Decoder -/

theorem genArgs_error_malformed (l : List Tok) (e : DecodeError)
    (h : generate_arguments l = .error e) : e = .malformedArguments := by
  rw [generate_arguments_eq] at h
  split at h
  · cases h
  · cases h
    rfl

theorem decode_term_cons_eq (ty : Tok) (rest : List Tok) :
    decode_term (ty :: rest) =
      if ty ∈ acceptedTypes then
        match generate_arguments rest with
        | .error e => .error e
        | .ok (pos, kw) =>
          if pos.length < 2 then .error .missingRequiredArgument
          else .ok (buildEntry (rest.headD []) pos kw)
      else .error .unrecognizedTemplate := rfl

theorem decode_term_with_ok (ty : Tok) (rest pos : List Tok) (kw : List (Tok × Tok))
    (hty : ty ∈ acceptedTypes) (hgen : generate_arguments rest = .ok (pos, kw)) :
    decode_term (ty :: rest) =
      if pos.length < 2 then .error .missingRequiredArgument
      else .ok (buildEntry (rest.headD []) pos kw) := by
  rw [decode_term_cons_eq, if_pos hty, hgen]

/-- Field-by-field description of `buildEntry`: each optional field equals the
corresponding keyword lookup; the keyword gender falls back to the third
positional argument; the qualifier is never set here. -/
theorem buildEntry_fields (arg1 : Tok) (pos : List Tok) (kw : List (Tok × Tok)) :
    (buildEntry arg1 pos kw).gender = (lookupKW kw (str "g") <|> (pos.drop 2).head?) ∧
    (buildEntry arg1 pos kw).script_code = lookupKW kw (str "sc") ∧
    (buildEntry arg1 pos kw).transliteration = lookupKW kw (str "tr") ∧
    (buildEntry arg1 pos kw).alternate_form = lookupKW kw (str "alt") ∧
    (buildEntry arg1 pos kw).literal_translation = lookupKW kw (str "lit") ∧
    (buildEntry arg1 pos kw).language_code = pos.headD [] ∧
    ((buildEntry arg1 pos kw).translation = (pos.drop 1).headD [] ∨
      (buildEntry arg1 pos kw).translation = removeBrackets ((pos.drop 1).headD [])) ∧
    (buildEntry arg1 pos kw).qualifier = none := by
  cases h1 : occursIn (str "]]") arg1 <;>
    cases h2 : (pos.drop 2).head? <;>
    cases h3 : lookupKW kw (str "sc") <;>
    cases h4 : lookupKW kw (str "tr") <;>
    cases h5 : lookupKW kw (str "alt") <;>
    cases h6 : lookupKW kw (str "lit") <;>
    cases h7 : lookupKW kw (str "g") <;>
    simp [buildEntry, h1, h2, h3, h4, h5, h6, h7]

/-! ## Claim theorems -/

/-- C4: the Argument Splitter fails with `MalformedArguments` exactly when
some token without `=` appears after a token containing `=`; otherwise the
positional arguments are the tokens without `=` in their original order, the
keyword mapping collects the tokens with `=`, and each such token is split on
its first `=` only (key before, value after, no trimming or unescaping). -/
theorem c4_argument_splitter (args : List Tok) :
    (generate_arguments args = .error .malformedArguments ↔
      ∃ x y, List.Sublist [x, y] args ∧ hasEq x = true ∧ hasEq y = false) ∧
    (∀ pos kw, generate_arguments args = .ok (pos, kw) →
      pos = args.filter (fun t => !hasEq t) ∧
      kw = (args.filter hasEq).foldl insStep []) ∧
    (∀ t, hasEq t = true →
      (splitKW t).1 ++ '=' :: (splitKW t).2 = t ∧ hasEq (splitKW t).1 = false) := by
  refine ⟨genArgs_error_iff args, ?_, ?_⟩
  · intro pos kw h
    exact genArgs_ok_spec args pos kw h
  · intro t h
    exact splitKW_spec t h

theorem c4_argument_splitter_witness :
    ([str "en", str "hello"] = ([str "en", str "hello", str "tr=x"].filter fun t => !hasEq t) ∧
      [(str "tr", str "x")] = ([str "en", str "hello", str "tr=x"].filter hasEq).foldl insStep []) ∧
    generate_arguments [str "tr=x", str "hello"] = .error .malformedArguments :=
  ⟨(c4_argument_splitter [str "en", str "hello", str "tr=x"]).2.1 [str "en", str "hello"]
      [(str "tr", str "x")] (by decide),
   (c4_argument_splitter [str "tr=x", str "hello"]).1.mpr
      ⟨str "tr=x", str "hello", List.Sublist.refl _, by decide, by decide⟩⟩

/-- C10: when several keyword tokens share the same key, the mapping returned
by the Argument Splitter holds the value of the last occurrence of that key;
earlier values are overwritten. -/
theorem c10_last_duplicate_wins (args pos : List Tok) (kw : List (Tok × Tok)) (k : Tok)
    (h : generate_arguments args = .ok (pos, kw)) :
    lookupKW kw k =
      ((args.filter hasEq).reverse.find? fun t => decide ((splitKW t).1 = k)).map
        fun t => (splitKW t).2 := by
  obtain ⟨-, hkw⟩ := genArgs_ok_spec args pos kw h
  rw [hkw, lookupKW_foldl]
  cases hf : (args.filter hasEq).reverse.find? fun t => decide ((splitKW t).1 = k) <;>
    simp [lookupKW]

theorem c10_last_duplicate_wins_witness :
    lookupKW [(str "g", str "f")] (str "g") =
      (([str "de", str "Hund", str "g=m", str "g=f"].filter hasEq).reverse.find? fun t =>
          decide ((splitKW t).1 = str "g")).map fun t => (splitKW t).2 :=
  c10_last_duplicate_wins [str "de", str "Hund", str "g=m", str "g=f"] [str "de", str "Hund"]
    [(str "g", str "f")] (str "g") (by decide)

/-- C5: the Term Decoder fails with `UnrecognizedTemplate` exactly when the
type tag is outside the accepted set; with an accepted type and well-ordered
arguments it fails with `MissingRequiredArgument` exactly when fewer than two
positional arguments result; `decode("x|en|hello")` fails with
`UnrecognizedTemplate`; and any decode failure only skips that one template
call — the codeblock loop continues unchanged with the rest of the line. -/
theorem c5_decoder_errors :
    (∀ ty rest, decode_term (ty :: rest) = .error .unrecognizedTemplate ↔ ty ∉ acceptedTypes) ∧
    (∀ ty rest pos kw, ty ∈ acceptedTypes → generate_arguments rest = .ok (pos, kw) →
      (decode_term (ty :: rest) = .error .missingRequiredArgument ↔ pos.length < 2)) ∧
    decode_term [str "x", str "en", str "hello"] = .error .unrecognizedTemplate ∧
    (∀ q es interior cbs e, decode_term (interior.splitOn '|') = .error e →
      ¬((interior.splitOn '|').headD [] = str "qualifier" ∧ 1 < (interior.splitOn '|').length) →
      runCodeblocks (q, es) (interior :: cbs) = runCodeblocks (q, es) cbs) := by
  refine ⟨?_, ?_, by decide, ?_⟩
  · intro ty rest
    constructor
    · intro h hmem
      cases hgen : generate_arguments rest with
      | error e =>
        rw [decode_term_cons_eq, if_pos hmem, hgen] at h
        have he := genArgs_error_malformed rest e hgen
        subst he
        simp at h
      | ok p =>
        obtain ⟨pos, kw⟩ := p
        rw [decode_term_with_ok ty rest pos kw hmem hgen] at h
        split at h <;> simp at h
    · intro h
      rw [decode_term_cons_eq, if_neg h]
  · intro ty rest pos kw hty hgen
    rw [decode_term_with_ok ty rest pos kw hty hgen]
    by_cases h2 : pos.length < 2
    · simp [h2]
    · simp [h2]
  · intro q es interior cbs e herr hq
    have hskip : procCB (q, es) interior = (q, es) := by
      cases hcb : interior.splitOn '|' with
      | nil => simp [procCB, hcb]
      | cons q0 ts =>
        rw [hcb] at herr hq
        simp only [procCB, hcb]
        have hcond : ¬(q0 = str "qualifier" ∧ ts ≠ []) := by
          intro ⟨hh1, hh2⟩
          exact hq ⟨by simp [hh1], by cases ts with
            | nil => exact absurd rfl hh2
            | cons a b => simp⟩
        rw [if_neg hcond, herr]
    simp [runCodeblocks, hskip]

theorem c5_decoder_errors_witness :
    decode_term [str "q"] = .error .unrecognizedTemplate ∧
    decode_term [str "t"] = .error .missingRequiredArgument ∧
    runCodeblocks (none, []) [str "t"] = runCodeblocks (none, []) [] :=
  ⟨(c5_decoder_errors.1 (str "q") []).mpr (by decide),
   (c5_decoder_errors.2.1 (str "t") [] [] [] (by decide) (by decide)).mpr (by decide),
   c5_decoder_errors.2.2.2 none [] (str "t") [] .missingRequiredArgument (by decide) (by decide)⟩

/-- C8: for every successful decode, the optional fields are exactly the
keyword lookups applied after the positional gender, in the source's fixed
order — so the keyword gender wins over the third positional argument
whenever both are present; in particular `decode("t|de|Hund|g=m")` yields
gender `"m"`. -/
theorem c8_gender_override :
    (∀ ty rest pos kw e, decode_term (ty :: rest) = .ok e →
      generate_arguments rest = .ok (pos, kw) →
      (e.gender = (lookupKW kw (str "g") <|> (pos.drop 2).head?) ∧
       e.script_code = lookupKW kw (str "sc") ∧
       e.transliteration = lookupKW kw (str "tr") ∧
       e.alternate_form = lookupKW kw (str "alt") ∧
       e.literal_translation = lookupKW kw (str "lit"))) ∧
    decode_term [str "t", str "de", str "Hund", str "g=m"] =
      .ok { language_code := str "de", translation := str "Hund", gender := some (str "m") } := by
  refine ⟨?_, by decide⟩
  intro ty rest pos kw e hdec hgen
  by_cases hty : ty ∈ acceptedTypes
  · rw [decode_term_with_ok ty rest pos kw hty hgen] at hdec
    split at hdec
    · cases hdec
    · simp only [Except.ok.injEq] at hdec
      subst hdec
      obtain ⟨f1, f2, f3, f4, f5, -⟩ := buildEntry_fields (rest.headD []) pos kw
      exact ⟨f1, f2, f3, f4, f5⟩
  · rw [decode_term_cons_eq, if_neg hty] at hdec
    cases hdec

theorem c8_gender_override_witness :
    ({ language_code := str "de", translation := str "Hund",
       gender := some (str "m") } : Translation).gender = some (str "m") :=
  (((c8_gender_override.1 (str "t") [str "de", str "Hund", str "g=m"]
      [str "de", str "Hund"] [(str "g", str "m")]
      { language_code := str "de", translation := str "Hund", gender := some (str "m") }
      (by decide) (by decide)).1).trans (by decide))

/-- C1: evaluation of the decoder at the spec's own example.  Because the
source condition `"[[" and "]]" in arguments[1]` evaluates to
`"]]" in arguments[1]` and `arguments[1]` is the language-code token, the
bracket branch never fires here: the entry keeps `is_equivalent_term = true`
and the brackets are not stripped, contradicting the claimed
`is_equivalent = false`, `text = "bon matin"`. -/
theorem c1_bracket_check_eval :
    decode_term [str "t", str "fr", str "[[bon]] [[matin]]"] =
      .ok { language_code := str "fr", translation := str "[[bon]] [[matin]]" } := by
  decide

/-- C2 (counterexample): a decode can succeed with empty `language_code` and
empty `text`, and such a row reaches the output: the claimed non-emptiness
invariant does not hold. -/
theorem c2_counterexample :
    decode_term [str "t", str "", str ""] =
      .ok { language_code := [], translation := [] } ∧
    outputRows (runMachine [str "<title>Word</title>", str "\x7b\x7btrans-top|greeting\x7d\x7d",
        str "\x7b\x7bt||\x7d\x7d", str "\x7b\x7btrans-bottom\x7d\x7d"]) =
      some [⟨some (str "Word"), str "greeting", str "", str "", true,
             none, none, none, none, none, none⟩] := by
  decide

/-- C2 (amended): after a successful decode both required fields are always
populated from the first two positional arguments, which must exist — a token
group with fewer than two positional arguments fails decoding, and a failed
decode appends no entry to the open group — but either field may be the
empty string. -/
theorem c2_required_fields_amended :
    (∀ ty rest pos kw e, decode_term (ty :: rest) = .ok e →
      generate_arguments rest = .ok (pos, kw) →
      2 ≤ pos.length ∧ e.language_code = pos.headD [] ∧
      (e.translation = (pos.drop 1).headD [] ∨
        e.translation = removeBrackets ((pos.drop 1).headD []))) ∧
    (∀ acc interior e', decode_term (interior.splitOn '|') = .error e' →
      (procCB acc interior).2 = acc.2) := by
  constructor
  · intro ty rest pos kw e hdec hgen
    by_cases hty : ty ∈ acceptedTypes
    · rw [decode_term_with_ok ty rest pos kw hty hgen] at hdec
      split at hdec
      · cases hdec
      · simp only [Except.ok.injEq] at hdec
        subst hdec
        obtain ⟨-, -, -, -, -, f6, f7, -⟩ := buildEntry_fields (rest.headD []) pos kw
        exact ⟨by omega, f6, f7⟩
    · rw [decode_term_cons_eq, if_neg hty] at hdec
      cases hdec
  · intro acc interior e' herr
    cases hcb : interior.splitOn '|' with
    | nil => simp [procCB, hcb]
    | cons q0 ts =>
      rw [hcb] at herr
      simp only [procCB, hcb]
      by_cases hcond : q0 = str "qualifier" ∧ ts ≠ []
      · rw [if_pos hcond]
      · rw [if_neg hcond, herr]

theorem c2_required_fields_amended_witness :
    (2 ≤ ([str "fr", str "bonjour"] : List Tok).length ∧
      ({ language_code := str "fr", translation := str "bonjour" } : Translation).language_code =
        ([str "fr", str "bonjour"] : List Tok).headD [] ∧
      (({ language_code := str "fr", translation := str "bonjour" } : Translation).translation =
          (([str "fr", str "bonjour"] : List Tok).drop 1).headD [] ∨
        ({ language_code := str "fr", translation := str "bonjour" } : Translation).translation =
          removeBrackets ((([str "fr", str "bonjour"] : List Tok).drop 1).headD []))) ∧
    (procCB (none, ([] : List Translation)) (str "x|y")).2 = [] :=
  ⟨c2_required_fields_amended.1 (str "t") [str "fr", str "bonjour"]
      [str "fr", str "bonjour"] [] { language_code := str "fr", translation := str "bonjour" }
      (by decide) (by decide),
   c2_required_fields_amended.2 (none, []) (str "x|y") .unrecognizedTemplate (by decide)⟩

/-- C3 (counterexample): from the initial Idle state, a block-close line is
not a no-op — the current group reference (still Python `None`) is appended
under the current page key (still `None`), so the accumulation mapping
changes. -/
theorem c3_counterexample :
    initialState.recording = false ∧
    initialState.translations = [] ∧
    (step initialState (str "\x7b\x7btrans-bottom\x7d\x7d")).translations = [(none, [none])] := by
  decide

/-- C3 (amended): a line reaching the block-close branch while Idle sets the
(already false) Recording flag to false and unconditionally appends the
current group value — `None`, or the most recently closed group — to the
current page's group list; the page accumulation mapping is therefore
changed, not left intact. -/
theorem c3_close_in_idle_amended (s : MachineState) (line : Tok)
    (hrec : s.recording = false)
    (h1 : occursIn titleMarker line = false)
    (h2 : occursIn topMarker line = false)
    (h3 : occursIn bottomMarker line = true) :
    step s line =
      { s with
          recording := false,
          translations := pushGroup s.translations s.page_title s.group } := by
  simp [step, h1, h2, h3]

theorem c3_close_in_idle_amended_witness :
    step initialState (str "\x7b\x7btrans-bottom\x7d\x7d") =
      { initialState with
          recording := false,
          translations :=
            pushGroup initialState.translations initialState.page_title initialState.group } :=
  c3_close_in_idle_amended initialState (str "\x7b\x7btrans-bottom\x7d\x7d")
    (by decide) (by decide) (by decide) (by decide)

/-- C6: the accumulation mapping changes only at lines reaching the
block-close branch (and then exactly by appending the current group); a
block-open line replaces the open group without touching the mapping, so a
group abandoned by a new open marker is never emitted; and at end of stream a
group still open in Recording state yields no output rows, as the output is
computed from the mapping alone. -/
theorem c6_only_closed_groups_emitted :
    (∀ s line, (step s line).translations = s.translations ∨
      ((occursIn titleMarker line = false ∧ occursIn topMarker line = false ∧
        occursIn bottomMarker line = true) ∧
       (step s line).translations = pushGroup s.translations s.page_title s.group)) ∧
    (∀ s line, occursIn titleMarker line = false → occursIn topMarker line = true →
      (step s line).translations = s.translations ∧
      (step s line).group = some ⟨extractMeaning line, []⟩) ∧
    (outputRows (runMachine [str "<title>Word</title>", str "\x7b\x7btrans-top|greeting\x7d\x7d",
        str "\x7b\x7bt|es|hola\x7d\x7d"]) = some [] ∧
      (runMachine [str "<title>Word</title>", str "\x7b\x7btrans-top|greeting\x7d\x7d",
        str "\x7b\x7bt|es|hola\x7d\x7d"]).recording = true ∧
      (runMachine [str "<title>Word</title>", str "\x7b\x7btrans-top|greeting\x7d\x7d",
        str "\x7b\x7bt|es|hola\x7d\x7d"]).group =
        some ⟨str "greeting", [{ language_code := str "es", translation := str "hola" }]⟩) := by
  refine ⟨?_, ?_, by decide⟩
  · intro s line
    by_cases h1 : occursIn titleMarker line = true
    · left
      simp [step, h1]
    · by_cases h2 : occursIn topMarker line = true
      · left
        simp [step, h1, h2]
      · by_cases h3 : occursIn bottomMarker line = true
        · right
          exact ⟨⟨by simpa using h1, by simpa using h2, h3⟩, by simp [step, h1, h2, h3]⟩
        · by_cases h4 : occursIn midMarker line = true
          · left
            simp [step, h1, h2, h3, h4]
          · by_cases h5 : s.recording = true
            · left
              simp [step, h1, h2, h3, h4, h5]
            · left
              simp [step, h1, h2, h3, h4, h5]
  · intro s line h1 h2
    constructor
    · simp [step, h1, h2]
    · simp [step, h1, h2]

theorem c6_only_closed_groups_emitted_witness :
    (step initialState (str "\x7b\x7btrans-top|x\x7d\x7d")).translations =
      initialState.translations ∧
    (step initialState (str "\x7b\x7btrans-top|x\x7d\x7d")).group =
      some ⟨extractMeaning (str "\x7b\x7btrans-top|x\x7d\x7d"), []⟩ :=
  c6_only_closed_groups_emitted.2.1 initialState (str "\x7b\x7btrans-top|x\x7d\x7d")
    (by decide) (by decide)

/-- C7: a qualifier template call with more than one token rewrites the
current qualifier to the remaining tokens joined with a bar; a successful
decode appends its entry with the current qualifier attached; each comma
segment restarts with no qualifier; and the example line
`\x7b\x7bqualifier|formal\x7d\x7d \x7b\x7bt|es|hola\x7d\x7d` inside an open
block yields exactly one entry, for `hola`, with qualifier `formal` — while
an entry on a following comma segment gets no qualifier. -/
theorem c7_qualifier_scope :
    (∀ q es ts interior cbs, interior.splitOn '|' = str "qualifier" :: ts → ts ≠ [] →
      runCodeblocks (q, es) (interior :: cbs) =
        runCodeblocks (some (List.intercalate (str "|") ts), es) cbs) ∧
    (∀ q es interior cbs e, decode_term (interior.splitOn '|') = .ok e →
      runCodeblocks (q, es) (interior :: cbs) =
        runCodeblocks (q, es ++ [{ e with qualifier := q }]) cbs) ∧
    (∀ g seg, processSegment g seg =
      { g with translations := (runCodeblocks (none, g.translations) (findCodeblocks seg)).2 }) ∧
    (∀ m, processLine (str "\x7b\x7bqualifier|formal\x7d\x7d \x7b\x7bt|es|hola\x7d\x7d")
        ⟨m, []⟩ =
      ⟨m, [{ language_code := str "es", translation := str "hola",
             qualifier := some (str "formal") }]⟩) ∧
    (∀ m, processLine
        (str "\x7b\x7bqualifier|formal\x7d\x7d \x7b\x7bt|es|hola\x7d\x7d, \x7b\x7bt|fr|salut\x7d\x7d")
        ⟨m, []⟩ =
      ⟨m, [{ language_code := str "es", translation := str "hola",
             qualifier := some (str "formal") },
           { language_code := str "fr", translation := str "salut" }]⟩) := by
  refine ⟨?_, ?_, ?_, ?_, ?_⟩
  · intro q es ts interior cbs hcb hts
    have hstep : procCB (q, es) interior = (some (List.intercalate (str "|") ts), es) := by
      simp only [procCB, hcb]
      simp [hts]
    simp [runCodeblocks, hstep]
  · intro q es interior cbs e hdec
    have hstep : procCB (q, es) interior = (q, es ++ [{ e with qualifier := q }]) := by
      cases hcb : interior.splitOn '|' with
      | nil =>
        rw [hcb] at hdec
        cases hdec
      | cons q0 ts =>
        rw [hcb] at hdec
        simp only [procCB, hcb]
        have hcond : ¬(q0 = str "qualifier" ∧ ts ≠ []) := by
          rintro ⟨hq0, -⟩
          subst hq0
          rw [decode_term_cons_eq, if_neg (by decide)] at hdec
          cases hdec
        rw [if_neg hcond, hdec]
    simp [runCodeblocks, hstep]
  · intro g seg
    rfl
  · intro m
    rfl
  · intro m
    rfl

theorem c7_qualifier_scope_witness :
    runCodeblocks (none, []) [str "qualifier|formal"] =
      runCodeblocks (some (List.intercalate (str "|") [str "formal"]), []) [] ∧
    runCodeblocks (none, []) [str "t|es|hola"] =
      runCodeblocks (none, [] ++
        [{ language_code := str "es", translation := str "hola", qualifier := none }]) [] :=
  ⟨c7_qualifier_scope.1 none [] [str "formal"] (str "qualifier|formal") [] (by decide)
      (by decide),
   c7_qualifier_scope.2.1 none [] (str "t|es|hola") []
      { language_code := str "es", translation := str "hola" } (by decide)⟩

/-- C9: every line containing the page-title marker sets the current page key
to the extracted title, stripping a trailing `/translations` so sub-pages
merge under the parent title, and changes nothing else — in particular not
the Idle/Recording state; `"Word/translations"` normalizes to `"Word"`, and a
run with a `Word` page followed by a `Word/translations` page accumulates
both groups under the single key `Word`. -/
theorem c9_title_handling :
    (∀ s line, occursIn titleMarker line = true →
      step s line = { s with page_title := some (extractTitle line) }) ∧
    extractTitle (str "<title>Word/translations</title>") = str "Word" ∧
    (runMachine [str "<title>Word</title>", str "\x7b\x7btrans-top|s1\x7d\x7d",
        str "\x7b\x7bt|es|uno\x7d\x7d", str "\x7b\x7btrans-bottom\x7d\x7d",
        str "<title>Word/translations</title>", str "\x7b\x7btrans-top|s2\x7d\x7d",
        str "\x7b\x7bt|fr|deux\x7d\x7d", str "\x7b\x7btrans-bottom\x7d\x7d"]).translations =
      [(some (str "Word"),
        [some ⟨str "s1", [{ language_code := str "es", translation := str "uno" }]⟩,
         some ⟨str "s2", [{ language_code := str "fr", translation := str "deux" }]⟩])] := by
  refine ⟨?_, by decide, by decide⟩
  intro s line h
  simp [step, h]

theorem c9_title_handling_witness :
    step initialState (str "<title>A</title>") =
      { initialState with page_title := some (extractTitle (str "<title>A</title>")) } :=
  c9_title_handling.1 initialState (str "<title>A</title>") (by decide)

end WiktionaryExtractor
